import Mathlib

/-
  Verification of openMVG/features/regions.hpp (AliceVision fork).

  Shallow embedding conventions:
  - std::size_t and IndexT indices become Nat.
  - The class template FeatDesc_Regions<FeatT, T, L, regionType> is embedded as a
    single structure with a uniform carrier for features and descriptors, plus a
    RegionsKey field that records the compile-time template parameters
    (feature type name, element type name, length L, encoding kind).  The key is
    the dynamic concrete type of the object; dynamic_cast succeeds exactly when
    the keys agree.
  - Out-of-range vector indexing and dereferencing a null downcast result are
    undefined behaviour in C++; the embedding models them as Option.none.
  - std::map<IndexT, IndexT> is embedded as an association list kept sorted by
    key, with operator[] assignment as mapAssign and lookup as mapFind; this
    reproduces the observable insert-or-overwrite semantics of std::map.
-/

namespace OpenMVG

/-- Region encoding kind, from enum class ERegionType { Binary, Scalar }. -/
inductive ERegionType
  | Binary
  | Scalar
deriving DecidableEq, Repr

/-- The compile-time template parameters of FeatDesc_Regions<FeatT, T, L, regionType>,
reified as the dynamic concrete type of a container object.  featT names FeatT,
elemT names typeid(T).name(), len is L, kind is regionType. -/
structure RegionsKey where
  featT : String
  elemT : String
  len : Nat
  kind : ERegionType
deriving DecidableEq, Repr

/-- Modelled from the spec: the geometric feature types (feature.hpp) are external
to src; a feature is a 2D image position plus type-specific geometric attributes
(scale, orientation, ...), here kept as an opaque list of extra components. -/
structure Feat where
  x : Int
  y : Int
  extra : List Int
deriving DecidableEq, Repr

/-- Modelled from the spec: a descriptor is a fixed-length array of L elements of
element type T (descriptor.hpp is external to src); elements are embedded as Int. -/
abbrev Desc := List Int

/-- IndexT from openMVG/types.hpp (an unsigned index type), embedded as Nat. -/
abbrev IndexT := Nat

/-- struct FeatureInImage: links a local feature index to a persistent 3D point id. -/
structure FeatureInImage where
  featureIndex : IndexT
  point3dId : IndexT
deriving DecidableEq, Repr

/-- The container FeatDesc_Regions (with its Feat_Regions base layer merged in):
parallel vectors _vec_feats and _vec_descs, plus the reified concrete type key. -/
structure FeatDesc_Regions where
  key : RegionsKey
  vec_feats : List Feat
  vec_descs : List Desc
deriving DecidableEq, Repr

/-- Feat_Regions::RegionCount: return _vec_feats.size(). -/
def RegionCount (r : FeatDesc_Regions) : Nat :=
  r.vec_feats.length

/-- Feat_Regions::Features (const getter): return _vec_feats. -/
def Features (r : FeatDesc_Regions) : List Feat :=
  r.vec_feats

/-- Feat_Regions::GetRegionPosition: return Vec2(_vec_feats[i].coords()); indexing
out of range is undefined, modelled as none. -/
def GetRegionPosition (r : FeatDesc_Regions) (i : Nat) : Option (Int × Int) :=
  (r.vec_feats.get? i).map fun f => (f.x, f.y)

/-- Feat_Regions::GetRegionsPositions: PointFeatures(_vec_feats.begin(), _vec_feats.end()),
each feature sliced down to its 2D position. -/
def GetRegionsPositions (r : FeatDesc_Regions) : List (Int × Int) :=
  r.vec_feats.map fun f => (f.x, f.y)

/-- FeatDesc_Regions::Type_id: return typeid(T).name(). -/
def Type_id (r : FeatDesc_Regions) : String :=
  r.key.elemT

/-- FeatDesc_Regions::DescriptorLength: return static_cast<std::size_t>(L). -/
def DescriptorLength (r : FeatDesc_Regions) : Nat :=
  r.key.len

/-- FeatDesc_Regions::IsScalar: return regionType == ERegionType::Scalar. -/
def IsScalar (r : FeatDesc_Regions) : Bool :=
  decide (r.key.kind = ERegionType.Scalar)

/-- FeatDesc_Regions::IsBinary: return regionType == ERegionType::Binary. -/
def IsBinary (r : FeatDesc_Regions) : Bool :=
  decide (r.key.kind = ERegionType.Binary)

/-- FeatDesc_Regions::EmptyClone: return new This() — a fresh default-constructed
container of the same concrete type (same key, empty vectors). -/
def EmptyClone (r : FeatDesc_Regions) : FeatDesc_Regions :=
  { key := r.key, vec_feats := [], vec_descs := [] }

/-- FeatDesc_Regions::blindDescriptors: return &_vec_descs (the whole container). -/
def blindDescriptors (r : FeatDesc_Regions) : List Desc :=
  r.vec_descs

/-- FeatDesc_Regions::DescriptorRawData: return &_vec_descs[0] — unconditionally
reads element 0 of the descriptor vector; on an empty vector this indexes out of
range (undefined), modelled as none. -/
def DescriptorRawData (r : FeatDesc_Regions) : Option Desc :=
  r.vec_descs.get? 0

/-- FeatDesc_Regions::clearDescriptors: _vec_descs.clear(). -/
def clearDescriptors (r : FeatDesc_Regions) : FeatDesc_Regions :=
  { r with vec_descs := [] }

/-- Modelled from the spec: loadFeatsFromFile / loadDescsFromBinFile and their save
counterparts are external byte-level I/O routines (not in src).  A routine applied
to a path returns a success Bool and leaves its output vector in some state,
possibly partially populated on failure; we model that observable outcome. -/
structure LoadOutcome (α : Type) where
  ok : Bool
  content : List α
deriving Repr

/-- FeatDesc_Regions::Load: return loadFeatsFromFile(...) & loadDescsFromBinFile(...).
The C++ & is the non-short-circuiting bitwise-and on bool, so both routines run
and both vectors receive whatever the routines produced, regardless of flags. -/
def Load (self : FeatDesc_Regions) (featLoad : LoadOutcome Feat) (descLoad : LoadOutcome Desc) :
    Bool × FeatDesc_Regions :=
  (featLoad.ok && descLoad.ok,
   { self with vec_feats := featLoad.content, vec_descs := descLoad.content })

/-- Models dynamic_cast<const Feat_Regions<SIOPointFeature>*>(&regions) in
getSIOPointFeatures: succeeds for any container whose feature type parameter is
SIOPointFeature (the descriptor parameters are irrelevant for a cast to the
Feat_Regions base layer), yielding access to its feature vector. -/
def dynamicCastSIO (r : FeatDesc_Regions) : Option (List Feat) :=
  if r.key.featT = "SIOPointFeature" then some (Features r) else none

/-- Free function getSIOPointFeatures: dynamic_cast to Feat_Regions<SIOPointFeature>;
if the cast yields null return the static empty vector, else return Features(). -/
def getSIOPointFeatures (r : FeatDesc_Regions) : List Feat :=
  match dynamicCastSIO r with
  | none => []
  | some fs => fs

/-- Number of set bits of a natural number (helper for the Hamming metric). -/
def popCount (n : Nat) : Nat :=
  if h : n = 0 then 0
  else n % 2 + popCount (n / 2)
decreasing_by
  exact Nat.div_lt_self (Nat.pos_of_ne_zero h) (by decide)

/-- Modelled from the spec: per-element contribution of the Hamming metric — the
number of differing bits between two (unsigned) elements. -/
def elemXorBits (x y : Int) : Nat :=
  popCount (Nat.xor x.toNat y.toNat)

/-- Modelled from the spec: matching::L2_Vectorized (metric.hpp is external to src)
computes the squared Euclidean distance over the first L elements. -/
def L2_Vectorized (L : Nat) (a b : Desc) : Int :=
  (List.zipWith (fun x y => (x - y) ^ 2) (a.take L) (b.take L)).sum

/-- Modelled from the spec: matching::SquaredHamming (metric.hpp is external to src)
computes the squared Hamming distance over the first L elements. -/
def SquaredHamming (L : Nat) (a b : Desc) : Int :=
  ((List.zipWith (fun x y => (elemXorBits x y : Int)) (a.take L) (b.take L)).sum) ^ 2

/-- SquaredMetric<T, regionType>::Metric: Scalar selects L2_Vectorized, Binary
selects SquaredHamming, at compile time. -/
def SquaredMetricOf : ERegionType → Nat → Desc → Desc → Int
  | ERegionType.Scalar => L2_Vectorized
  | ERegionType.Binary => SquaredHamming

/-- Models dynamic_cast<const This*>(genericRegions) inside
FeatDesc_Regions::SquaredDescriptorDistance: succeeds exactly when the dynamic
concrete type of the operand equals that of self. -/
def dynamicCastThis (self other : FeatDesc_Regions) : Option FeatDesc_Regions :=
  if other.key = self.key then some other else none

/-- The debug assertions executed by SquaredDescriptorDistance, exactly as written:
assert(i < this->_vec_descs.size()); assert(genericRegions); assert(j < genericRegions->RegionCount()).
The non-null assertion always holds in the embedding (references, not pointers). -/
def sdd_assertsHold (self : FeatDesc_Regions) (i : Nat) (other : FeatDesc_Regions) (j : Nat) : Bool :=
  decide (i < self.vec_descs.length) && decide (j < RegionCount other)

/-- FeatDesc_Regions::SquaredDescriptorDistance: downcast the operand with
dynamic_cast (the result is dereferenced without any null check: a mismatch is
undefined, modelled none), then apply the statically selected metric to
descriptor i of self and descriptor j of the operand over static_size elements. -/
def SquaredDescriptorDistance (self : FeatDesc_Regions) (i : Nat)
    (other : FeatDesc_Regions) (j : Nat) : Option Int :=
  match dynamicCastThis self other with
  | none => none
  | some o =>
    match self.vec_descs.get? i, o.vec_descs.get? j with
    | some a, some b => some (SquaredMetricOf self.key.kind self.key.len a b)
    | _, _ => none

/-- The debug assertion executed by CopyRegion, exactly as written:
assert(i < this->_vec_feats.size() && i < this->_vec_descs.size()). -/
def copy_assertsHold (self : FeatDesc_Regions) (i : Nat) : Bool :=
  decide (i < self.vec_feats.length) && decide (i < self.vec_descs.length)

/-- FeatDesc_Regions::CopyRegion: static_cast the target to This and push_back
feature i and descriptor i.  The cast is unchecked: applying it to a container of
a different dynamic type is undefined, modelled none; out-of-range access is
likewise undefined, modelled none. -/
def CopyRegion (self : FeatDesc_Regions) (i : Nat) (target : FeatDesc_Regions) :
    Option FeatDesc_Regions :=
  if target.key = self.key then
    match self.vec_feats.get? i, self.vec_descs.get? i with
    | some f, some d =>
        some { target with
                 vec_feats := target.vec_feats ++ [f],
                 vec_descs := target.vec_descs ++ [d] }
    | _, _ => none
  else none

/-- std::map<IndexT, IndexT> operator[] assignment: insert or overwrite, keeping
the association list sorted by key (the observable std::map representation). -/
def mapAssign : List (IndexT × IndexT) → IndexT → IndexT → List (IndexT × IndexT)
  | [], k, v => [(k, v)]
  | (k1, v1) :: rest, k, v =>
    if k < k1 then (k, v) :: (k1, v1) :: rest
    else if k = k1 then (k, v) :: rest
    else (k1, v1) :: mapAssign rest k v

/-- std::map lookup (find / at). -/
def mapFind : List (IndexT × IndexT) → IndexT → Option IndexT
  | [], _ => none
  | (k1, v1) :: rest, k => if k = k1 then some v1 else mapFind rest k

/-- The loop body of createFilteredRegions, iterating i over featuresInImage:
push _vec_feats[feat._featureIndex] and _vec_descs[feat._featureIndex] onto the
new container, assign out_mapFullToLocal[feat._featureIndex] = i, and push
feat._point3dId; out-of-range source indexing is undefined, modelled none. -/
def cfrLoop (self : FeatDesc_Regions) :
    List FeatureInImage → Nat → FeatDesc_Regions → List IndexT → List (IndexT × IndexT) →
    Option (FeatDesc_Regions × List IndexT × List (IndexT × IndexT))
  | [], _, acc, a3d, m => some (acc, a3d, m)
  | feat :: rest, i, acc, a3d, m =>
    match self.vec_feats.get? feat.featureIndex, self.vec_descs.get? feat.featureIndex with
    | some f, some d =>
        cfrLoop self rest (i + 1)
          { acc with
              vec_feats := acc.vec_feats ++ [f],
              vec_descs := acc.vec_descs ++ [d] }
          (a3d ++ [feat.point3dId])
          (mapAssign m feat.featureIndex i)
    | _, _ => none

/-- FeatDesc_Regions::createFilteredRegions: clear both output arguments, allocate
a fresh container of the same concrete type (new This), then run the loop.  The
initial contents of the two output arguments are passed only to witness that the
result never depends on them (they are cleared first). -/
def createFilteredRegions (self : FeatDesc_Regions) (featuresInImage : List FeatureInImage)
    (out_associated3dPoint : List IndexT) (out_mapFullToLocal : List (IndexT × IndexT)) :
    Option (FeatDesc_Regions × List IndexT × List (IndexT × IndexT)) :=
  cfrLoop self featuresInImage 0 (EmptyClone self) [] []

/-- Index of the last entry of the association list whose featureIndex equals x. -/
def lastIdxOf : List FeatureInImage → IndexT → Option Nat
  | [], _ => none
  | f :: rest, x =>
    match lastIdxOf rest x with
    | some k => some (k + 1)
    | none => if f.featureIndex = x then some 0 else none

/-- Concrete scalar key used in witnesses. -/
def keyScalarF : RegionsKey :=
  { featT := "SIOPointFeature", elemT := "f", len := 2, kind := ERegionType.Scalar }

/-- Concrete binary key used in witnesses (a different concrete type). -/
def keyBinaryU : RegionsKey :=
  { featT := "PointFeature", elemT := "h", len := 2, kind := ERegionType.Binary }

/-- Concrete 3-feature source container used in witnesses. -/
def egSelf : FeatDesc_Regions :=
  { key := keyScalarF,
    vec_feats := [⟨0, 0, []⟩, ⟨1, 0, []⟩, ⟨2, 0, []⟩],
    vec_descs := [[10, 0], [11, 0], [12, 0]] }

/-- Concrete association list from the spec example: [(2,100),(0,101)]. -/
def egAssoc : List FeatureInImage :=
  [⟨2, 100⟩, ⟨0, 101⟩]

/-- Concrete association list with a duplicate featureIndex: [(0,10),(0,11)]. -/
def egAssocDup : List FeatureInImage :=
  [⟨0, 10⟩, ⟨0, 11⟩]

/-- Concrete container of the same concrete type as egSelf. -/
def egOther : FeatDesc_Regions :=
  { key := keyScalarF, vec_feats := [⟨1, 0, []⟩], vec_descs := [[5, 5]] }

/-- Concrete container of a different concrete type than egSelf. -/
def egBinary : FeatDesc_Regions :=
  { key := keyBinaryU, vec_feats := [⟨0, 0, []⟩], vec_descs := [[3, 1]] }

/-- The sum of a zipWith by a commutative function is symmetric in its list arguments. -/
theorem zipWith_symm {β : Type} (f : Int → Int → β) (hf : ∀ x y, f x y = f y x) :
    ∀ (a b : List Int), List.zipWith f a b = List.zipWith f b a
  | [], [] => rfl
  | [], _ :: _ => rfl
  | _ :: _, [] => rfl
  | x :: a, y :: b => by
    simp only [List.zipWith_cons_cons, hf x y, zipWith_symm f hf a b]

/-- L2_Vectorized is symmetric. -/
theorem L2_Vectorized_symm (L : Nat) (a b : Desc) :
    L2_Vectorized L a b = L2_Vectorized L b a := by
  unfold L2_Vectorized
  rw [zipWith_symm _ (fun x y => by ring)]

/-- elemXorBits is symmetric. -/
theorem elemXorBits_symm (x y : Int) : elemXorBits x y = elemXorBits y x := by
  unfold elemXorBits
  exact congrArg popCount (Nat.xor_comm x.toNat y.toNat)

/-- SquaredHamming is symmetric. -/
theorem SquaredHamming_symm (L : Nat) (a b : Desc) :
    SquaredHamming L a b = SquaredHamming L b a := by
  unfold SquaredHamming
  rw [zipWith_symm _ (fun x y => by rw [elemXorBits_symm])]

/-- Every selected metric is symmetric. -/
theorem SquaredMetricOf_symm (k : ERegionType) (L : Nat) (a b : Desc) :
    SquaredMetricOf k L a b = SquaredMetricOf k L b a := by
  cases k
  · exact SquaredHamming_symm L a b
  · exact L2_Vectorized_symm L a b

/-- C3: clearDescriptors leaves RegionCount, GetRegionPosition at every index, and
GetRegionsPositions unchanged (features and concrete type untouched); only the
descriptor storage is modified, namely emptied. -/
theorem clearDescriptors_preserves_positions (r : FeatDesc_Regions) :
    RegionCount (clearDescriptors r) = RegionCount r ∧
    (∀ i, GetRegionPosition (clearDescriptors r) i = GetRegionPosition r i) ∧
    GetRegionsPositions (clearDescriptors r) = GetRegionsPositions r ∧
    (clearDescriptors r).vec_feats = r.vec_feats ∧
    (clearDescriptors r).key = r.key ∧
    (clearDescriptors r).vec_descs = [] :=
  ⟨rfl, fun _ => rfl, rfl, rfl, rfl, rfl⟩

/-- C6: EmptyClone yields a container with RegionCount zero whose IsScalar,
IsBinary, DescriptorLength and Type_id equal those of the source. -/
theorem EmptyClone_empty_same_type (r : FeatDesc_Regions) :
    RegionCount (EmptyClone r) = 0 ∧
    IsScalar (EmptyClone r) = IsScalar r ∧
    IsBinary (EmptyClone r) = IsBinary r ∧
    DescriptorLength (EmptyClone r) = DescriptorLength r ∧
    Type_id (EmptyClone r) = Type_id r :=
  ⟨rfl, rfl, rfl, rfl, rfl⟩

/-- C8: Load returns true iff both the feature load and the descriptor load
succeed; both routines run (non-short-circuiting bitwise and), and both vectors
are left exactly as the routines produced them, with no rollback on failure. -/
theorem Load_iff_both (self : FeatDesc_Regions) (fl : LoadOutcome Feat) (dl : LoadOutcome Desc) :
    ((Load self fl dl).1 = true ↔ (fl.ok = true ∧ dl.ok = true)) ∧
    (Load self fl dl).2.vec_feats = fl.content ∧
    (Load self fl dl).2.vec_descs = dl.content :=
  ⟨(Bool.and_eq_true fl.ok dl.ok) ▸ Iff.rfl, rfl, rfl⟩

/-- C9: getSIOPointFeatures returns the static empty vector whenever the dynamic
type of the argument is not a Feat_Regions<SIOPointFeature> container, and the
container feature vector itself when it is. -/
theorem getSIOPointFeatures_fallback (r : FeatDesc_Regions) :
    (r.key.featT ≠ "SIOPointFeature" → getSIOPointFeatures r = []) ∧
    (r.key.featT = "SIOPointFeature" → getSIOPointFeatures r = Features r) := by
  constructor
  · intro h
    simp [getSIOPointFeatures, dynamicCastSIO, h]
  · intro h
    simp [getSIOPointFeatures, dynamicCastSIO, h]

/-- C9 witness: concrete instantiations, one container of a non-SIO dynamic type
and one of the SIO dynamic type. -/
theorem getSIOPointFeatures_fallback_witness :
    (egBinary.key.featT ≠ "SIOPointFeature" ∧ getSIOPointFeatures egBinary = []) ∧
    (egSelf.key.featT = "SIOPointFeature" ∧ getSIOPointFeatures egSelf = Features egSelf) :=
  ⟨⟨by decide, (getSIOPointFeatures_fallback egBinary).1 (by decide)⟩,
   ⟨by decide, (getSIOPointFeatures_fallback egSelf).2 (by decide)⟩⟩

/-- C10: DescriptorRawData reads element 0 of the descriptor vector, so it is out
of range (undefined, none) on every container with no descriptors — in particular
on EmptyClone results and after clearDescriptors — and is well defined exactly
when at least one descriptor is present. -/
theorem DescriptorRawData_requires_nonempty (r : FeatDesc_Regions) :
    (r.vec_descs = [] → DescriptorRawData r = none) ∧
    (r.vec_descs ≠ [] → (DescriptorRawData r).isSome = true) ∧
    DescriptorRawData (EmptyClone r) = none ∧
    DescriptorRawData (clearDescriptors r) = none := by
  refine ⟨fun h => by simp [DescriptorRawData, h], fun h => ?_, rfl, rfl⟩
  cases hd : r.vec_descs with
  | nil => exact absurd hd h
  | cons d rest => simp [DescriptorRawData, hd]

/-- C10 witness: concrete instantiations of both implications. -/
theorem DescriptorRawData_requires_nonempty_witness :
    ((EmptyClone egSelf).vec_descs = [] ∧ DescriptorRawData (EmptyClone egSelf) = none) ∧
    (egSelf.vec_descs ≠ [] ∧ (DescriptorRawData egSelf).isSome = true) :=
  ⟨⟨rfl, (DescriptorRawData_requires_nonempty (EmptyClone egSelf)).1 rfl⟩,
   ⟨by decide, (DescriptorRawData_requires_nonempty egSelf).2.1 (by decide)⟩⟩

/-- C4: on a same-typed target and an index valid for both source vectors,
CopyRegion appends exactly one feature and one descriptor: both target lengths
grow by one, the new last feature and descriptor equal the source entries at i,
and the parallel-index invariant is preserved. -/
theorem CopyRegion_appends (self target : FeatDesc_Regions) (i : Nat)
    (hkey : target.key = self.key)
    (hf : i < self.vec_feats.length) (hd : i < self.vec_descs.length) :
    ∃ t, CopyRegion self i target = some t ∧
      t.vec_feats.length = target.vec_feats.length + 1 ∧
      t.vec_descs.length = target.vec_descs.length + 1 ∧
      t.vec_feats.getLast? = self.vec_feats.get? i ∧
      t.vec_descs.getLast? = self.vec_descs.get? i ∧
      (target.vec_feats.length = target.vec_descs.length →
        t.vec_feats.length = t.vec_descs.length) := by
  have vf : self.vec_feats.get? i = some (self.vec_feats.get ⟨i, hf⟩) :=
    List.get?_eq_get hf
  have vd : self.vec_descs.get? i = some (self.vec_descs.get ⟨i, hd⟩) :=
    List.get?_eq_get hd
  refine ⟨{ target with
              vec_feats := target.vec_feats ++ [self.vec_feats.get ⟨i, hf⟩],
              vec_descs := target.vec_descs ++ [self.vec_descs.get ⟨i, hd⟩] },
          ?_, by simp, by simp, ?_, ?_, by intro h; simp [h]⟩
  · unfold CopyRegion
    rw [if_pos hkey, vf, vd]
  · simp [vf]
  · simp [vd]

/-- C4 witness: concrete instantiation on a same-typed pair. -/
theorem CopyRegion_appends_witness :
    egOther.key = egSelf.key ∧ 1 < egSelf.vec_feats.length ∧ 1 < egSelf.vec_descs.length ∧
    (∃ t, CopyRegion egSelf 1 egOther = some t ∧
      t.vec_feats.length = egOther.vec_feats.length + 1 ∧
      t.vec_descs.length = egOther.vec_descs.length + 1 ∧
      t.vec_feats.getLast? = egSelf.vec_feats.get? 1 ∧
      t.vec_descs.getLast? = egSelf.vec_descs.get? 1 ∧
      (egOther.vec_feats.length = egOther.vec_descs.length →
        t.vec_feats.length = t.vec_descs.length)) :=
  ⟨rfl, by decide, by decide,
   CopyRegion_appends egSelf egOther 1 rfl (by decide) (by decide)⟩

/-- C5: SquaredDescriptorDistance is symmetric between two containers of the
identical concrete type at valid descriptor indices. -/
theorem SquaredDescriptorDistance_symm (a b : FeatDesc_Regions) (i j : Nat)
    (hkey : a.key = b.key)
    (hi : i < a.vec_descs.length) (hj : j < b.vec_descs.length) :
    SquaredDescriptorDistance a i b j = SquaredDescriptorDistance b j a i := by
  have va : a.vec_descs.get? i = some (a.vec_descs.get ⟨i, hi⟩) := List.get?_eq_get hi
  have vb : b.vec_descs.get? j = some (b.vec_descs.get ⟨j, hj⟩) := List.get?_eq_get hj
  simp only [SquaredDescriptorDistance, dynamicCastThis, hkey, if_true, if_pos rfl]
  simp only [va, vb]
  rw [SquaredMetricOf_symm]

/-- C5 witness: concrete instantiation on a same-typed pair at valid indices. -/
theorem SquaredDescriptorDistance_symm_witness :
    egSelf.key = egOther.key ∧ 0 < egSelf.vec_descs.length ∧ 0 < egOther.vec_descs.length ∧
    SquaredDescriptorDistance egSelf 0 egOther 0 = SquaredDescriptorDistance egOther 0 egSelf 0 :=
  ⟨rfl, by decide, by decide,
   SquaredDescriptorDistance_symm egSelf egOther 0 0 rfl (by decide) (by decide)⟩

/-- C7 counterexample: a concrete type mismatch that no debug assertion detects —
every assertion of SquaredDescriptorDistance and CopyRegion holds while the two
operands have different dynamic concrete types, and both operations end in
undefined behaviour (none) instead of a detected contract violation. -/
theorem typeMismatch_assert_counterexample :
    egSelf.key ≠ egBinary.key ∧
    sdd_assertsHold egSelf 0 egBinary 0 = true ∧
    copy_assertsHold egSelf 0 = true ∧
    SquaredDescriptorDistance egSelf 0 egBinary 0 = none ∧
    CopyRegion egSelf 0 egBinary = none := by
  have hne : ¬ (egBinary.key = egSelf.key) := by decide
  refine ⟨by decide, by decide, by decide, ?_, ?_⟩
  · simp [SquaredDescriptorDistance, dynamicCastThis, hne]
  · simp [CopyRegion, hne]

/-- C7 (amended): no assertion checks the concrete type — the assertions cover
only index bounds and non-nullness; on a dynamic-type mismatch
SquaredDescriptorDistance dereferences the null result of its unchecked
dynamic_cast and CopyRegion applies an unchecked static_cast, both undefined
(none) in every build; under the precondition that the operand has the identical
concrete type and the indices are in range, both operations complete. -/
theorem typeMismatch_undefined_not_asserted (self other : FeatDesc_Regions) (i j : Nat) :
    (other.key ≠ self.key →
      SquaredDescriptorDistance self i other j = none ∧ CopyRegion self i other = none) ∧
    (other.key = self.key → i < self.vec_descs.length → j < other.vec_descs.length →
      (SquaredDescriptorDistance self i other j).isSome = true) ∧
    (other.key = self.key → i < self.vec_feats.length → i < self.vec_descs.length →
      (CopyRegion self i other).isSome = true) := by
  refine ⟨fun hne => ⟨?_, ?_⟩, fun hkey hi hj => ?_, fun hkey hif hid => ?_⟩
  · simp [SquaredDescriptorDistance, dynamicCastThis, hne]
  · simp [CopyRegion, hne]
  · have va : self.vec_descs[i]? = some self.vec_descs[i] := List.getElem?_eq_getElem hi
    have vb : other.vec_descs[j]? = some other.vec_descs[j] := List.getElem?_eq_getElem hj
    simp [SquaredDescriptorDistance, dynamicCastThis, hkey, va, vb]
  · have va : self.vec_feats[i]? = some self.vec_feats[i] := List.getElem?_eq_getElem hif
    have vd : self.vec_descs[i]? = some self.vec_descs[i] := List.getElem?_eq_getElem hid
    simp [CopyRegion, hkey, va, vd]

/-- C7 (amended) witness: concrete instantiations — a mismatched pair where both
operations are undefined, and a same-typed pair where both complete. -/
theorem typeMismatch_undefined_not_asserted_witness :
    (egBinary.key ≠ egSelf.key ∧
      SquaredDescriptorDistance egSelf 0 egBinary 0 = none ∧
      CopyRegion egSelf 0 egBinary = none) ∧
    (egOther.key = egSelf.key ∧
      (SquaredDescriptorDistance egSelf 0 egOther 0).isSome = true ∧
      (CopyRegion egSelf 0 egOther).isSome = true) := by
  have hne : egBinary.key ≠ egSelf.key := by decide
  exact ⟨⟨hne, (typeMismatch_undefined_not_asserted egSelf egBinary 0 0).1 hne⟩,
         ⟨rfl, (typeMismatch_undefined_not_asserted egSelf egOther 0 0).2.1 rfl
                 (by decide) (by decide),
               (typeMismatch_undefined_not_asserted egSelf egOther 0 0).2.2 rfl
                 (by decide) (by decide)⟩⟩

/-- Lookup after a map assignment at the same key yields the assigned value. -/
theorem mapFind_mapAssign_self : ∀ (m : List (IndexT × IndexT)) (k v : IndexT),
    mapFind (mapAssign m k v) k = some v
  | [], k, v => by simp [mapAssign, mapFind]
  | (k1, v1) :: rest, k, v => by
    by_cases h1 : k < k1
    · simp [mapAssign, mapFind, h1]
    · by_cases h2 : k = k1
      · simp [mapAssign, mapFind, h1, h2]
      · simp [mapAssign, mapFind, h1, h2, mapFind_mapAssign_self rest k v]

/-- Lookup after a map assignment at a different key is unchanged. -/
theorem mapFind_mapAssign_ne : ∀ (m : List (IndexT × IndexT)) (k v x : IndexT), x ≠ k →
    mapFind (mapAssign m k v) x = mapFind m x
  | [], k, v, x, hx => by simp [mapAssign, mapFind, hx]
  | (k1, v1) :: rest, k, v, x, hx => by
    by_cases h1 : k < k1
    · simp [mapAssign, mapFind, h1, hx]
    · by_cases h2 : k = k1
      · subst h2
        simp [mapAssign, mapFind, h1, hx]
      · by_cases h3 : x = k1
        · simp [mapAssign, mapFind, h1, h2, h3]
        · simp [mapAssign, mapFind, h1, h2, h3, mapFind_mapAssign_ne rest k v x hx]

/-- lastIdxOf is none when no entry has the given featureIndex. -/
theorem lastIdxOf_eq_none : ∀ (fii : List FeatureInImage) (x : IndexT),
    (∀ f ∈ fii, f.featureIndex ≠ x) → lastIdxOf fii x = none
  | [], _, _ => rfl
  | f :: rest, x, h => by
    have hr := lastIdxOf_eq_none rest x (fun g hg => h g (List.mem_cons_of_mem f hg))
    simp [lastIdxOf, hr, h f (List.mem_cons_self f rest)]

/-- If position k is the last occurrence of its featureIndex in the association
list, then lastIdxOf finds exactly k. -/
theorem lastIdxOf_of_last : ∀ (fii : List FeatureInImage) (k : Nat) (hk : k < fii.length),
    (∀ k2 (hk2 : k2 < fii.length), k < k2 →
      (fii.get ⟨k2, hk2⟩).featureIndex ≠ (fii.get ⟨k, hk⟩).featureIndex) →
    lastIdxOf fii ((fii.get ⟨k, hk⟩).featureIndex) = some k
  | f :: rest, 0, hk, hlast => by
    have hnone : lastIdxOf rest f.featureIndex = none := by
      apply lastIdxOf_eq_none
      intro g hg
      obtain ⟨⟨j, hj⟩, rfl⟩ := List.mem_iff_get.mp hg
      exact hlast (j + 1) (Nat.succ_lt_succ hj) (Nat.succ_pos j)
    simp [lastIdxOf, hnone]
  | f :: rest, k + 1, hk, hlast => by
    have hk1 : k < rest.length := Nat.lt_of_succ_lt_succ hk
    have ih := lastIdxOf_of_last rest k hk1 (fun k2 hk2 hlt =>
      hlast (k2 + 1) (Nat.succ_lt_succ hk2) (Nat.succ_lt_succ hlt))
    have ih2 : lastIdxOf rest rest[k].featureIndex = some k := ih
    simp [lastIdxOf, ih2]

/-- Complete characterisation of the createFilteredRegions loop when every
association index is in range for both source vectors. -/
theorem cfrLoop_spec (self : FeatDesc_Regions) (fii : List FeatureInImage) :
    (∀ f ∈ fii, f.featureIndex < self.vec_feats.length ∧
                f.featureIndex < self.vec_descs.length) →
    ∀ (i : Nat) (acc : FeatDesc_Regions) (a3d : List IndexT) (m : List (IndexT × IndexT)),
    ∃ C P M, cfrLoop self fii i acc a3d m = some (C, P, M) ∧
      C.key = acc.key ∧
      C.vec_feats.length = acc.vec_feats.length + fii.length ∧
      C.vec_descs.length = acc.vec_descs.length + fii.length ∧
      (∀ k, k < acc.vec_feats.length → C.vec_feats.get? k = acc.vec_feats.get? k) ∧
      (∀ k, k < acc.vec_descs.length → C.vec_descs.get? k = acc.vec_descs.get? k) ∧
      (∀ k (hk : k < fii.length),
        C.vec_feats.get? (acc.vec_feats.length + k) =
          self.vec_feats.get? (fii.get ⟨k, hk⟩).featureIndex ∧
        C.vec_descs.get? (acc.vec_descs.length + k) =
          self.vec_descs.get? (fii.get ⟨k, hk⟩).featureIndex) ∧
      P = a3d ++ fii.map (fun f => f.point3dId) ∧
      (∀ x, mapFind M x = (match lastIdxOf fii x with
        | some k => some (i + k)
        | none => mapFind m x)) := by
  induction fii with
  | nil =>
    intro _ i acc a3d m
    refine ⟨acc, a3d, m, rfl, rfl, by simp, by simp,
            fun _ _ => rfl, fun _ _ => rfl,
            fun k hk => absurd hk (Nat.not_lt_zero k),
            by simp, fun x => rfl⟩
  | cons f rest ih =>
    intro hin i acc a3d m
    obtain ⟨hf, hd⟩ := hin f (List.mem_cons_self f rest)
    have hrest : ∀ g ∈ rest, g.featureIndex < self.vec_feats.length ∧
                             g.featureIndex < self.vec_descs.length :=
      fun g hg => hin g (List.mem_cons_of_mem f hg)
    have vf : self.vec_feats.get? f.featureIndex =
        some (self.vec_feats.get ⟨f.featureIndex, hf⟩) := List.get?_eq_get hf
    have vd : self.vec_descs.get? f.featureIndex =
        some (self.vec_descs.get ⟨f.featureIndex, hd⟩) := List.get?_eq_get hd
    obtain ⟨C, P, M, heq, hkey, hlf, hld, hpf, hpd, hpt, hP, hM⟩ :=
      ih hrest (i + 1)
        { acc with
            vec_feats := acc.vec_feats ++ [self.vec_feats.get ⟨f.featureIndex, hf⟩],
            vec_descs := acc.vec_descs ++ [self.vec_descs.get ⟨f.featureIndex, hd⟩] }
        (a3d ++ [f.point3dId]) (mapAssign m f.featureIndex i)
    refine ⟨C, P, M, ?_, hkey, ?_, ?_, ?_, ?_, ?_, ?_, ?_⟩
    · simp only [cfrLoop, vf, vd]
      exact heq
    · simp only [List.length_append, List.length_cons, List.length_nil] at hlf ⊢
      omega
    · simp only [List.length_append, List.length_cons, List.length_nil] at hld ⊢
      omega
    · intro k hk
      have hk1 : k < (acc.vec_feats ++
          [self.vec_feats.get ⟨f.featureIndex, hf⟩]).length := by
        simp only [List.length_append, List.length_cons, List.length_nil]
        omega
      rw [hpf k hk1, List.get?_append hk]
    · intro k hk
      have hk1 : k < (acc.vec_descs ++
          [self.vec_descs.get ⟨f.featureIndex, hd⟩]).length := by
        simp only [List.length_append, List.length_cons, List.length_nil]
        omega
      rw [hpd k hk1, List.get?_append hk]
    · intro k hk
      cases k with
      | zero =>
        constructor
        · have hlt : acc.vec_feats.length < (acc.vec_feats ++
              [self.vec_feats.get ⟨f.featureIndex, hf⟩]).length := by
            simp only [List.length_append, List.length_cons, List.length_nil]
            omega
          rw [Nat.add_zero, hpf _ hlt, List.get?_concat_length]
          exact vf.symm
        · have hlt : acc.vec_descs.length < (acc.vec_descs ++
              [self.vec_descs.get ⟨f.featureIndex, hd⟩]).length := by
            simp only [List.length_append, List.length_cons, List.length_nil]
            omega
          rw [Nat.add_zero, hpd _ hlt, List.get?_concat_length]
          exact vd.symm
      | succ k1 =>
        have hk1 : k1 < rest.length := Nat.lt_of_succ_lt_succ hk
        obtain ⟨h1, h2⟩ := hpt k1 hk1
        constructor
        · have harith : acc.vec_feats.length + (k1 + 1) =
              (acc.vec_feats ++
                [self.vec_feats.get ⟨f.featureIndex, hf⟩]).length + k1 := by
            simp only [List.length_append, List.length_cons, List.length_nil]
            omega
          rw [harith, h1]
          rfl
        · have harith : acc.vec_descs.length + (k1 + 1) =
              (acc.vec_descs ++
                [self.vec_descs.get ⟨f.featureIndex, hd⟩]).length + k1 := by
            simp only [List.length_append, List.length_cons, List.length_nil]
            omega
          rw [harith, h2]
          rfl
    · rw [hP]
      simp
    · intro x
      rw [hM x]
      cases hrx : lastIdxOf rest x with
      | some k1 =>
        simp only [lastIdxOf, hrx]
        rw [Nat.add_assoc, Nat.add_comm 1 k1]
      | none =>
        by_cases hfx : f.featureIndex = x
        · simp only [lastIdxOf, hrx, if_pos hfx]
          rw [← hfx, mapFind_mapAssign_self, Nat.add_zero]
        · simp only [lastIdxOf, hrx, if_neg hfx]
          exact mapFind_mapAssign_ne m f.featureIndex i x (fun h => hfx h.symm)

/-- C1: when every association featureIndex is in range for both source vectors,
createFilteredRegions succeeds with a same-typed container whose k-th feature and
descriptor equal the source entries at the k-th association featureIndex, sets
out_associated3dPoint to the point3dId values in association order, maps each
retained original featureIndex to its new local index (the position of its last
occurrence), and rebuilds both outputs from empty regardless of their initial
contents (they are cleared first). -/
theorem createFilteredRegions_correct
    (self : FeatDesc_Regions) (fii : List FeatureInImage)
    (out3d0 : List IndexT) (outMap0 : List (IndexT × IndexT))
    (hin : ∀ f ∈ fii, f.featureIndex < self.vec_feats.length ∧
                      f.featureIndex < self.vec_descs.length) :
    ∃ C P M, createFilteredRegions self fii out3d0 outMap0 = some (C, P, M) ∧
      C.key = self.key ∧
      RegionCount C = fii.length ∧
      C.vec_descs.length = fii.length ∧
      (∀ k (hk : k < fii.length),
        C.vec_feats.get? k = self.vec_feats.get? (fii.get ⟨k, hk⟩).featureIndex ∧
        C.vec_descs.get? k = self.vec_descs.get? (fii.get ⟨k, hk⟩).featureIndex) ∧
      P = fii.map (fun f => f.point3dId) ∧
      (∀ k (hk : k < fii.length),
        (∀ k2 (hk2 : k2 < fii.length), k < k2 →
          (fii.get ⟨k2, hk2⟩).featureIndex ≠ (fii.get ⟨k, hk⟩).featureIndex) →
        mapFind M (fii.get ⟨k, hk⟩).featureIndex = some k) ∧
      createFilteredRegions self fii out3d0 outMap0 =
        createFilteredRegions self fii [] [] := by
  obtain ⟨C, P, M, heq, hkey, hlf, hld, _, _, hpt, hP, hM⟩ :=
    cfrLoop_spec self fii hin 0 (EmptyClone self) [] []
  refine ⟨C, P, M, heq, hkey, ?_, ?_, ?_, ?_, ?_, rfl⟩
  · simpa [RegionCount, EmptyClone] using hlf
  · simpa [EmptyClone] using hld
  · intro k hk
    have h := hpt k hk
    simpa [EmptyClone] using h
  · simpa using hP
  · intro k hk hlastk
    have hl := lastIdxOf_of_last fii k hk hlastk
    rw [hM, hl]
    simp

/-- C1 witness: the spec example — associations [(2,100),(0,101)] on a 3-feature
container, with nonempty initial output arguments to witness the clearing. -/
theorem createFilteredRegions_correct_witness :
    (∀ f ∈ egAssoc, f.featureIndex < egSelf.vec_feats.length ∧
                    f.featureIndex < egSelf.vec_descs.length) ∧
    (∃ C P M, createFilteredRegions egSelf egAssoc [7] [(9, 9)] = some (C, P, M) ∧
      C.key = egSelf.key ∧
      RegionCount C = egAssoc.length ∧
      C.vec_descs.length = egAssoc.length ∧
      (∀ k (hk : k < egAssoc.length),
        C.vec_feats.get? k = egSelf.vec_feats.get? (egAssoc.get ⟨k, hk⟩).featureIndex ∧
        C.vec_descs.get? k = egSelf.vec_descs.get? (egAssoc.get ⟨k, hk⟩).featureIndex) ∧
      P = egAssoc.map (fun f => f.point3dId) ∧
      (∀ k (hk : k < egAssoc.length),
        (∀ k2 (hk2 : k2 < egAssoc.length), k < k2 →
          (egAssoc.get ⟨k2, hk2⟩).featureIndex ≠ (egAssoc.get ⟨k, hk⟩).featureIndex) →
        mapFind M (egAssoc.get ⟨k, hk⟩).featureIndex = some k) ∧
      createFilteredRegions egSelf egAssoc [7] [(9, 9)] =
        createFilteredRegions egSelf egAssoc [] []) :=
  ⟨by decide, createFilteredRegions_correct egSelf egAssoc [7] [(9, 9)] (by decide)⟩

/-- C2: with duplicate featureIndex values among the associations, the map entry
for a duplicated featureIndex is the position of its last occurrence
(last-write-wins), while the result container and the 3D point sequence still
receive one entry per association (no deduplication). -/
theorem createFilteredRegions_lastWriteWins
    (self : FeatDesc_Regions) (fii : List FeatureInImage)
    (out3d0 : List IndexT) (outMap0 : List (IndexT × IndexT))
    (hin : ∀ f ∈ fii, f.featureIndex < self.vec_feats.length ∧
                      f.featureIndex < self.vec_descs.length)
    (k1 k2 : Nat) (hk1 : k1 < fii.length) (hk2 : k2 < fii.length)
    (hlt : k1 < k2)
    (hdup : (fii.get ⟨k1, hk1⟩).featureIndex = (fii.get ⟨k2, hk2⟩).featureIndex)
    (hlast : ∀ k3 (hk3 : k3 < fii.length), k2 < k3 →
      (fii.get ⟨k3, hk3⟩).featureIndex ≠ (fii.get ⟨k2, hk2⟩).featureIndex) :
    ∃ C P M, createFilteredRegions self fii out3d0 outMap0 = some (C, P, M) ∧
      mapFind M (fii.get ⟨k1, hk1⟩).featureIndex = some k2 ∧
      RegionCount C = fii.length ∧
      C.vec_descs.length = fii.length ∧
      P.length = fii.length := by
  obtain ⟨C, P, M, heq, _, hlf, hld, _, _, _, hP, hM⟩ :=
    cfrLoop_spec self fii hin 0 (EmptyClone self) [] []
  refine ⟨C, P, M, heq, ?_, ?_, ?_, ?_⟩
  · have hl := lastIdxOf_of_last fii k2 hk2 hlast
    rw [hdup, hM, hl]
    simp
  · simpa [RegionCount, EmptyClone] using hlf
  · simpa [EmptyClone] using hld
  · rw [hP]
    simp

/-- C2 witness: the spec example — associations [(0,10),(0,11)] yield a map entry
0 to 1 and a 2-entry result container. -/
theorem createFilteredRegions_lastWriteWins_witness :
    (∀ f ∈ egAssocDup, f.featureIndex < egSelf.vec_feats.length ∧
                       f.featureIndex < egSelf.vec_descs.length) ∧
    (∃ C P M, createFilteredRegions egSelf egAssocDup [] [] = some (C, P, M) ∧
      mapFind M ((egAssocDup.get ⟨0, by decide⟩).featureIndex) = some 1 ∧
      RegionCount C = egAssocDup.length ∧
      C.vec_descs.length = egAssocDup.length ∧
      P.length = egAssocDup.length) :=
  ⟨by decide,
   createFilteredRegions_lastWriteWins egSelf egAssocDup [] [] (by decide)
     0 1 (by decide) (by decide) (by decide) (by decide)
     (fun k3 hk3 hgt => by
       simp [egAssocDup] at hk3
       omega)⟩

end OpenMVG
